import Mathlib

/-!
Verification development for the p2pcf rendezvous/signaling engine.

The repository ships only the public declaration surface (`src/src/p2pcf.d.ts`);
the engine behind it is specified in `spec.md`.  Declaration-level facts
(options, defaults, method signatures, event payload types) are embedded from
the `.d.ts` file; behavioral components (initiator tie-break, peer lifecycle,
session table, broadcast) are modelled from the spec, as noted on each
definition.
-/

namespace P2PCF

/-! ## Initiator tie-break -/

/-- Modelled from the spec: strict lexicographic order on `(clientId, sessionId)`
identity tuples, used for the initiator tie-break (§3 PeerSession.isInitiator).
The engine implementation is not under src/; only the `.d.ts` declaration is. -/
def tupleLt (a b : String × String) : Bool :=
  decide (a.1 < b.1) || (decide (a.1 = b.1) && decide (a.2 < b.2))

/-- Modelled from the spec: a session initiates iff its own
`(clientId, sessionId)` tuple is lexicographically greater than the remote
side's tuple (§3: "the lexicographically greater tuple initiates"). -/
def isInitiator (self other : String × String) : Bool :=
  tupleLt other self

/-! ## Configuration options and their defaults -/

/-- The timing options of `P2PCFOptions` as declared in
`src/src/p2pcf.d.ts` (lines 62–109); every field is optional there. -/
structure P2PCFOptions where
  networkChangePollIntervalMs : Option Nat := none
  stateExpirationIntervalMs : Option Nat := none
  stateHeartbeatWindowMs : Option Nat := none
  fastPollingDurationMs : Option Nat := none
  fastPollingRateMs : Option Nat := none
  slowPollingRateMs : Option Nat := none
  idlePollingAfterMs : Option Nat := none
  idlePollingRateMs : Option Nat := none

/-- The effective timing configuration after defaults are applied.
`idlePollingAfterMs = none` means idle polling is disabled ("default: never");
`idlePollingRateMs = ⊤` is Infinity (polling stops when idle). -/
structure ResolvedTimingConfig where
  networkChangePollIntervalMs : Nat
  stateExpirationIntervalMs : Nat
  stateHeartbeatWindowMs : Nat
  fastPollingDurationMs : Nat
  fastPollingRateMs : Nat
  slowPollingRateMs : Nat
  idlePollingAfterMs : Option Nat
  idlePollingRateMs : ℕ∞
  deriving DecidableEq

/-- Default substitution for omitted options, from the doc comments of
`src/src/p2pcf.d.ts` lines 62–109 (default: 15000 / 120000 / 30000 / 10000 /
1500 / 5000 / never / Infinity). -/
def resolveTimingOptions (o : P2PCFOptions) : ResolvedTimingConfig where
  networkChangePollIntervalMs := o.networkChangePollIntervalMs.getD 15000
  stateExpirationIntervalMs := o.stateExpirationIntervalMs.getD 120000
  stateHeartbeatWindowMs := o.stateHeartbeatWindowMs.getD 30000
  fastPollingDurationMs := o.fastPollingDurationMs.getD 10000
  fastPollingRateMs := o.fastPollingRateMs.getD 1500
  slowPollingRateMs := o.slowPollingRateMs.getD 5000
  idlePollingAfterMs := o.idlePollingAfterMs
  idlePollingRateMs :=
    match o.idlePollingRateMs with
    | some v => (v : ℕ∞)
    | none => ⊤

/-! ## The declared public surface of class P2PCF -/

/-- Kind of a class member in the TypeScript declaration. -/
inductive MemberKind
  | field
  | method
  deriving DecidableEq, Repr

/-- A named public member of the `P2PCF` class declaration. -/
structure Member where
  name : String
  kind : MemberKind
  deriving DecidableEq, Repr

/-- The public members of `class P2PCF` as declared in `src/src/p2pcf.d.ts`
lines 265–326. -/
def p2pcfClassMembers : List Member :=
  [⟨"peers", .field⟩, ⟨"connectedSessions", .field⟩,
   ⟨"clientId", .field⟩, ⟨"roomId", .field⟩,
   ⟨"sessionId", .field⟩, ⟨"contextId", .field⟩,
   ⟨"constructor", .method⟩, ⟨"start", .method⟩, ⟨"send", .method⟩,
   ⟨"broadcast", .method⟩, ⟨"destroy", .method⟩]

/-- The events of `P2PCFEventMap` as declared in `src/src/p2pcf.d.ts`
lines 245–260. -/
def p2pcfEvents : List String := ["peerconnect", "peerclose", "msg"]

/-- The surface the spec claims the Engine consists of exactly
(spec §6 "Engine surface"): written from the spec's words, to be compared
with `p2pcfClassMembers` taken from the source declaration. -/
def claimedSurfaceMembers : List Member :=
  [⟨"constructor", .method⟩, ⟨"start", .method⟩, ⟨"send", .method⟩,
   ⟨"broadcast", .method⟩, ⟨"destroy", .method⟩,
   ⟨"peers", .field⟩, ⟨"connectedSessions", .field⟩]

/-- The identity fields the `.d.ts` class declares beyond the spec's list. -/
def engineIdentityFields : List Member :=
  [⟨"clientId", .field⟩, ⟨"roomId", .field⟩,
   ⟨"sessionId", .field⟩, ⟨"contextId", .field⟩]

/-- A (simplified) TypeScript type, enough to embed the declared signatures. -/
inductive TsType
  | void
  | string
  | arrayBuffer
  | uint8Array
  | peerHandle
  | promise (t : TsType)
  | union2 (a b : TsType)
  deriving DecidableEq, Repr

/-- A method signature from the class declaration. -/
structure MethodSig where
  name : String
  params : List TsType
  ret : TsType
  deriving DecidableEq, Repr

/-- The method signatures of `class P2PCF` as declared in
`src/src/p2pcf.d.ts` lines 302–325. -/
def p2pcfMethods : List MethodSig :=
  [⟨"start", [], .promise .void⟩,
   ⟨"send", [.peerHandle, .union2 .arrayBuffer .uint8Array], .void⟩,
   ⟨"broadcast", [.union2 .arrayBuffer .uint8Array], .void⟩,
   ⟨"destroy", [], .void⟩]

/-- The event payload signatures of `P2PCFEventMap` as declared in
`src/src/p2pcf.d.ts` lines 245–260. -/
def p2pcfEventSigs : List (String × List TsType) :=
  [("peerconnect", [.peerHandle]),
   ("peerclose", [.peerHandle]),
   ("msg", [.peerHandle, .arrayBuffer])]

/-! ## Context id store fallback -/

/-- A ContextIdStore capability, abstracted by where it keeps the id and
whether that storage survives a page reload.  The store implementations are
not under src/; this is transcribed from the doc comments of
`src/src/p2pcf.d.ts` lines 133–137 ("If left out, will use
window.history.state storage") and lines 291–294 (the context id "persists
across page refreshes"). -/
structure StoreModel where
  location : String
  survivesReload : Bool
  deriving DecidableEq, Repr

/-- The default store the engine falls back to when no `contextIdStore`
option is provided: `window.history.state` storage, which persists across
page refreshes per the `.d.ts` doc comments. -/
def historyStateStore : StoreModel :=
  ⟨"window.history.state", true⟩

/-- The store the engine effectively uses, given the optional
`contextIdStore` option. -/
def effectiveStore (provided : Option StoreModel) : StoreModel :=
  provided.getD historyStateStore

/-! ## Peer lifecycle and engine events

Modelled from the spec (§3 PeerSession, §4.3 SignalingRouter, §4.6 Engine);
the engine implementation is not under src/, only the `.d.ts` declaration. -/

/-- Modelled from the spec: the PeerSession lifecycle states (§3).  The
transient `CLOSING` stage is folded into the `CLOSED` transition, and
`EXPIRED` is treated as a close (§4.3 treats expiration identically). -/
inductive PeerState
  | discovered
  | negotiating
  | connected
  | closed
  deriving DecidableEq, Repr

/-- Modelled from the spec: the router-level happenings that drive one
peer session (§4.3): the tie-break/negotiation start, the connection object
reporting "connected", an inbound application message, and the connection
object reporting closed/error or the session expiring. -/
inductive PeerAction
  | beginNegotiation
  | connectionConnected
  | messageReceived
  | connectionClosed
  deriving DecidableEq, Repr

/-- The three Engine events of `P2PCFEventMap` (src/src/p2pcf.d.ts
lines 245–260), as emitted for one given peer. -/
inductive PeerEvent
  | peerconnect
  | msg
  | peerclose
  deriving DecidableEq, Repr

/-- Modelled from the spec: one tracked peer session — its lifecycle state
and whether it ever reached `CONNECTED` (§4.3: `peerclose` fires only if the
session had been `CONNECTED`). -/
structure PeerSession where
  state : PeerState
  everConnected : Bool
  deriving DecidableEq, Repr

/-- A freshly created session: `DISCOVERED`, never connected (§3 lifecycle). -/
def initialSession : PeerSession :=
  ⟨.discovered, false⟩

/-- Modelled from the spec: one router step on one peer session (§4.3):
`DISCOVERED → NEGOTIATING` emits nothing; the connection reporting
"connected" moves `NEGOTIATING → CONNECTED` and emits `peerconnect`;
an application message on a `CONNECTED` session emits `msg`; a close or
expiration moves to `CLOSED` and emits `peerclose` iff the session had been
`CONNECTED`.  Anything else is a no-op. -/
def stepPeer (s : PeerSession) (a : PeerAction) : PeerSession × List PeerEvent :=
  match s.state, a with
  | .discovered, .beginNegotiation => ({ s with state := .negotiating }, [])
  | .negotiating, .connectionConnected =>
      ({ state := .connected, everConnected := true }, [.peerconnect])
  | .connected, .messageReceived => (s, [.msg])
  | .connected, .connectionClosed =>
      ({ s with state := .closed },
       if s.everConnected then [.peerclose] else [])
  | .negotiating, .connectionClosed => ({ s with state := .closed }, [])
  | .discovered, .connectionClosed => ({ s with state := .closed }, [])
  | _, _ => (s, [])

/-- Run one peer session over a list of actions, collecting emitted events. -/
def runPeer : PeerSession → List PeerAction → PeerSession × List PeerEvent
  | s, [] => (s, [])
  | s, a :: as =>
      ((runPeer (stepPeer s a).1 as).1,
       (stepPeer s a).2 ++ (runPeer (stepPeer s a).1 as).2)

/-- Point update of the engine's table of sessions. -/
def updateTable (f : String → PeerSession) (sid : String) (s : PeerSession) :
    String → PeerSession :=
  fun x => if x = sid then s else f x

/-- Modelled from the spec: the serialized Engine (§5 single logical
timeline) processing a stream of per-peer actions, each tagged with the
remote sessionId; emitted events are tagged with the peer they concern
(§4.6 `peerconnect(peer)`, `msg(peer, bytes)`, `peerclose(peer)`). -/
def runEngine : (String → PeerSession) → List (String × PeerAction) →
    (String → PeerSession) × List (String × PeerEvent)
  | f, [] => (f, [])
  | f, (sid, a) :: rest =>
      ((runEngine (updateTable f sid (stepPeer (f sid) a).1) rest).1,
       ((stepPeer (f sid) a).2.map (fun e => (sid, e))) ++
         (runEngine (updateTable f sid (stepPeer (f sid) a).1) rest).2)

/-- The actions of an engine stream that concern peer `p`. -/
def actionsFor (p : String) : List (String × PeerAction) → List PeerAction
  | [] => []
  | (sid, a) :: rest =>
      if sid = p then a :: actionsFor p rest else actionsFor p rest

/-- The subsequence of a tagged event stream that concerns peer `p`. -/
def eventsFor (p : String) : List (String × PeerEvent) → List PeerEvent
  | [] => []
  | (sid, e) :: rest =>
      if sid = p then e :: eventsFor p rest else eventsFor p rest

/-- The subsequence of the Engine's emitted events that concern peer `p`,
starting from a table where every session is fresh. -/
def engineEventsFor (p : String) (as : List (String × PeerAction)) : List PeerEvent :=
  eventsFor p (runEngine (fun _ => initialSession) as).2

/-- The final state of peer `p`'s session after the Engine processes `as`. -/
def engineFinalSession (p : String) (as : List (String × PeerAction)) : PeerSession :=
  (runEngine (fun _ => initialSession) as).1 p

/-! ## Session table and signaling envelopes -/

/-- A SignalingEnvelope (§3): `from`/`to` sessionIds and an opaque payload.
`from` is a Lean keyword, so the fields are named `fromSession`/`toSession`. -/
structure SignalingEnvelope where
  fromSession : String
  toSession : String
  payload : String
  deriving DecidableEq, Repr

/-- Association-list lookup in the PeerSessionTable (§4.4). -/
def tableLookup (sid : String) : List (String × PeerSession) → Option PeerSession
  | [] => none
  | (k, v) :: t => if k = sid then some v else tableLookup sid t

/-- Does a session own a live connection object?  (§3 invariant: the
connection exists iff the state is NEGOTIATING, CONNECTED or CLOSING;
CLOSING is folded into the close transition here.) -/
def hasConnection (s : PeerSession) : Bool :=
  decide (s.state = PeerState.negotiating) || decide (s.state = PeerState.connected)

/-- Modelled from the spec: the router receiving a SignalingEnvelope (§4.3):
for a never-before-seen remote sessionId, lazily create the PeerSession
(`DISCOVERED`, tie-break, `NEGOTIATING` with exactly one fresh connection
object); for a known one, forward the opaque payload into the existing
connection object, which changes nothing in the table (§4.4 insert-if-absent). -/
def handleEnvelope (t : List (String × PeerSession)) (e : SignalingEnvelope) :
    List (String × PeerSession) :=
  match tableLookup e.fromSession t with
  | some _ => t
  | none => (e.fromSession, ⟨.negotiating, false⟩) :: t

/-- Process a stream of envelopes against the table. -/
def processEnvelopes (t : List (String × PeerSession)) :
    List SignalingEnvelope → List (String × PeerSession)
  | [] => t
  | e :: es => processEnvelopes (handleEnvelope t e) es

/-! ## Broadcast -/

/-- Modelled from the spec: a peer as `broadcast` sees it (§4.6) —
its sessionId, its lifecycle state, and whether the connection object's
send throws for it (the abstract failure the spec's partial-failure clause
is about). -/
structure BroadcastPeer where
  sid : String
  state : PeerState
  sendThrows : Bool
  deriving DecidableEq, Repr

/-- One attempted send to one peer: the connection object either delivers
or throws. -/
def attemptSend (p : BroadcastPeer) : Except String Unit :=
  if p.sendThrows then Except.error p.sid else Except.ok ()

/-- Modelled from the spec: `broadcast` (§4.6) sends to every `CONNECTED`
session; a throwing send is caught and collected, and the loop continues.
Returns (collected errors, sessionIds delivered to), in peer order. -/
def broadcast : List BroadcastPeer → List String × List String
  | [] => ([], [])
  | p :: rest =>
      if p.state = PeerState.connected then
        match attemptSend p with
        | Except.ok _ => ((broadcast rest).1, p.sid :: (broadcast rest).2)
        | Except.error err => (err :: (broadcast rest).1, (broadcast rest).2)
      else broadcast rest

/-! ## Theorems: initiator tie-break -/

/-- **C1.** For every pair of sessions with distinct `(clientId, sessionId)`
tuples, the tie-break — computed independently on each side by lexicographic
comparison, the greater tuple initiating — designates exactly one of the two
sessions as initiator: never both initiate, never both wait. -/
theorem initiator_tiebreak_exactly_one (a b : String × String) (h : a ≠ b) :
    (isInitiator a b = true ∧ isInitiator b a = false) ∨
    (isInitiator a b = false ∧ isInitiator b a = true) := by
  rcases lt_trichotomy a.1 b.1 with h1 | h1 | h1
  · right
    constructor
    · simp [isInitiator, tupleLt, h1.asymm, h1.ne']
    · simp [isInitiator, tupleLt, h1]
  · have h2 : a.2 ≠ b.2 := by
      intro h2
      exact h (Prod.ext h1 h2)
    rcases lt_trichotomy a.2 b.2 with h3 | h3 | h3
    · right
      constructor
      · simp [isInitiator, tupleLt, h1, h3.asymm]
      · simp [isInitiator, tupleLt, h1, h3]
    · exact absurd h3 h2
    · left
      constructor
      · simp [isInitiator, tupleLt, h1, h3]
      · simp [isInitiator, tupleLt, h1, h3.asymm]
  · left
    constructor
    · simp [isInitiator, tupleLt, h1]
    · simp [isInitiator, tupleLt, h1.asymm, h1.ne']

/-- Witness for C1 at the concrete tuples ("bobb","s2") and ("alia","s1"). -/
theorem initiator_tiebreak_exactly_one_witness :
    (isInitiator ("bobb", "s2") ("alia", "s1") = true ∧
      isInitiator ("alia", "s1") ("bobb", "s2") = false) ∨
    (isInitiator ("bobb", "s2") ("alia", "s1") = false ∧
      isInitiator ("alia", "s1") ("bobb", "s2") = true) :=
  initiator_tiebreak_exactly_one ("bobb", "s2") ("alia", "s1") (by decide)

/-! ## Theorems: session table uniqueness and idempotence -/

lemma tableLookup_eq_none (sid : String) (t : List (String × PeerSession)) :
    tableLookup sid t = none ↔ sid ∉ t.map Prod.fst := by
  induction t with
  | nil => simp [tableLookup]
  | cons kv t ih =>
      obtain ⟨k, v⟩ := kv
      by_cases hk : k = sid
      · simp [tableLookup, hk]
      · simp [tableLookup, hk, ih, Ne.symm hk]

lemma handleEnvelope_nodup (t : List (String × PeerSession)) (e : SignalingEnvelope)
    (h : (t.map Prod.fst).Nodup) : ((handleEnvelope t e).map Prod.fst).Nodup := by
  unfold handleEnvelope
  cases hl : tableLookup e.fromSession t with
  | some s => exact h
  | none =>
      simp only [List.map_cons, List.nodup_cons]
      exact ⟨(tableLookup_eq_none _ _).mp hl, h⟩

lemma processEnvelopes_nodup (es : List SignalingEnvelope)
    (t : List (String × PeerSession)) (h : (t.map Prod.fst).Nodup) :
    ((processEnvelopes t es).map Prod.fst).Nodup := by
  induction es generalizing t with
  | nil => exact h
  | cons e es ih => exact ih _ (handleEnvelope_nodup t e h)

lemma handleEnvelope_idem (t : List (String × PeerSession)) (e : SignalingEnvelope) :
    handleEnvelope (handleEnvelope t e) e = handleEnvelope t e := by
  cases hl : tableLookup e.fromSession t with
  | some s =>
      have h1 : handleEnvelope t e = t := by
        unfold handleEnvelope
        rw [hl]
      rw [h1]
      exact h1
  | none =>
      have h1 : handleEnvelope t e = (e.fromSession, ⟨.negotiating, false⟩) :: t := by
        unfold handleEnvelope
        rw [hl]
      rw [h1]
      unfold handleEnvelope
      simp [tableLookup]

/-- **C4.** After any stream of signaling envelopes, the table holds at most
one PeerSession per remote sessionId, at most one connection object per
remote sessionId, and re-delivering any envelope a second time changes
nothing: it never produces a second connection object for the same remote
sessionId. -/
theorem one_session_per_remote_sessionId (es : List SignalingEnvelope)
    (e : SignalingEnvelope) :
    ((processEnvelopes [] es).map Prod.fst).Nodup ∧
    (((processEnvelopes [] es).filter (fun kv => hasConnection kv.2)).map Prod.fst).Nodup ∧
    handleEnvelope (handleEnvelope (processEnvelopes [] es) e) e =
      handleEnvelope (processEnvelopes [] es) e := by
  have h := processEnvelopes_nodup es [] (by simp)
  refine ⟨h, ?_, handleEnvelope_idem _ e⟩
  exact ((List.filter_sublist _).map Prod.fst).nodup h

/-! ## Theorems: broadcast partial failure -/

/-- **C5.** `broadcast` attempts delivery to every connected session: the
peers it delivers to are exactly the connected peers whose send does not
throw — a throwing peer never prevents delivery to the others — and the
errors of the connected peers whose send throws are all collected, without
aborting the loop. -/
theorem broadcast_partial_failure (peers : List BroadcastPeer) :
    (broadcast peers).2 =
      (peers.filter
        (fun p => decide (p.state = PeerState.connected) && !p.sendThrows)).map
        BroadcastPeer.sid ∧
    (broadcast peers).1 =
      (peers.filter
        (fun p => decide (p.state = PeerState.connected) && p.sendThrows)).map
        BroadcastPeer.sid := by
  induction peers with
  | nil => simp [broadcast]
  | cons p rest ih =>
      by_cases hc : p.state = PeerState.connected
      · by_cases ht : p.sendThrows
        · simp [broadcast, attemptSend, hc, ht, ih]
        · simp only [Bool.not_eq_true] at ht
          simp [broadcast, attemptSend, hc, ht, ih]
      · simp [broadcast, hc, ih]

/-! ## Theorems: the declared public surface -/

/-! ## Theorems: per-peer event ordering -/

/-- The invariant tying a session's state to the events emitted for it so
far: nothing before `peerconnect`; only `msg` between `peerconnect` and
`peerclose`; `peerclose` last, and only after a connect. -/
def traceInv (s : PeerSession) (es : List PeerEvent) : Prop :=
  match s.state, s.everConnected with
  | .discovered, false => es = []
  | .negotiating, false => es = []
  | .closed, false => es = []
  | .connected, true =>
      ∃ n, es = PeerEvent.peerconnect :: List.replicate n PeerEvent.msg
  | .closed, true =>
      ∃ n, es = (PeerEvent.peerconnect :: List.replicate n PeerEvent.msg) ++
        [PeerEvent.peerclose]
  | _, _ => False

lemma stepPeer_inv (s : PeerSession) (a : PeerAction) (es : List PeerEvent)
    (h : traceInv s es) :
    traceInv (stepPeer s a).1 (es ++ (stepPeer s a).2) := by
  obtain ⟨st, ec⟩ := s
  cases st with
  | discovered =>
      cases ec with
      | false =>
          have hes : es = [] := h
          subst hes
          cases a <;> simp [stepPeer, traceInv]
      | true => exact (h : False).elim
  | negotiating =>
      cases ec with
      | false =>
          have hes : es = [] := h
          subst hes
          cases a with
          | beginNegotiation => simp [stepPeer, traceInv]
          | connectionConnected => exact ⟨0, rfl⟩
          | messageReceived => simp [stepPeer, traceInv]
          | connectionClosed => simp [stepPeer, traceInv]
      | true => exact (h : False).elim
  | connected =>
      cases ec with
      | false => exact (h : False).elim
      | true =>
          obtain ⟨n, hes⟩ :
              ∃ n, es = PeerEvent.peerconnect :: List.replicate n PeerEvent.msg := h
          subst hes
          cases a with
          | beginNegotiation => exact ⟨n, by simp [stepPeer]⟩
          | connectionConnected => exact ⟨n, by simp [stepPeer]⟩
          | messageReceived =>
              exact ⟨n + 1, by simp [stepPeer, List.replicate_succ']⟩
          | connectionClosed => exact ⟨n, rfl⟩
  | closed =>
      cases ec with
      | false =>
          have hes : es = [] := h
          subst hes
          cases a <;> simp [stepPeer, traceInv]
      | true =>
          obtain ⟨n, hes⟩ :
              ∃ n, es = (PeerEvent.peerconnect :: List.replicate n PeerEvent.msg) ++
                [PeerEvent.peerclose] := h
          subst hes
          cases a <;> exact ⟨n, by simp [stepPeer]⟩

lemma runPeer_inv (as : List PeerAction) (s : PeerSession) (es : List PeerEvent)
    (h : traceInv s es) :
    traceInv (runPeer s as).1 (es ++ (runPeer s as).2) := by
  induction as generalizing s es with
  | nil => simpa [runPeer] using h
  | cons a as ih =>
      have h' := ih (stepPeer s a).1 (es ++ (stepPeer s a).2) (stepPeer_inv s a es h)
      simpa [runPeer, List.append_assoc] using h'

lemma runPeer_traceInv (as : List PeerAction) :
    traceInv (runPeer initialSession as).1 (runPeer initialSession as).2 := by
  have h := runPeer_inv as initialSession [] rfl
  simpa using h

lemma actionsFor_cons_eq (p : String) (a : PeerAction)
    (as : List (String × PeerAction)) :
    actionsFor p ((p, a) :: as) = a :: actionsFor p as := by
  simp [actionsFor]

lemma actionsFor_cons_ne (p sid : String) (hs : sid ≠ p) (a : PeerAction)
    (as : List (String × PeerAction)) :
    actionsFor p ((sid, a) :: as) = actionsFor p as := by
  simp [actionsFor, hs]

lemma eventsFor_append (p : String) (xs ys : List (String × PeerEvent)) :
    eventsFor p (xs ++ ys) = eventsFor p xs ++ eventsFor p ys := by
  induction xs with
  | nil => simp [eventsFor]
  | cons x xs ih =>
      obtain ⟨sid, e⟩ := x
      by_cases hs : sid = p <;> simp [eventsFor, hs, ih]

lemma eventsFor_map_tag (p sid : String) (es : List PeerEvent) :
    eventsFor p (es.map (fun e => (sid, e))) = if sid = p then es else [] := by
  induction es with
  | nil => simp [eventsFor]
  | cons e es ih =>
      by_cases hs : sid = p
      · subst hs
        simp [eventsFor, ih]
      · simp [eventsFor, hs, ih]

lemma engine_project (f : String → PeerSession) (as : List (String × PeerAction))
    (p : String) :
    (runEngine f as).1 p = (runPeer (f p) (actionsFor p as)).1 ∧
    eventsFor p (runEngine f as).2 = (runPeer (f p) (actionsFor p as)).2 := by
  induction as generalizing f with
  | nil => simp [runEngine, runPeer, actionsFor, eventsFor]
  | cons x rest ih =>
      obtain ⟨sid, a⟩ := x
      have ih' := ih (updateTable f sid (stepPeer (f sid) a).1)
      by_cases hs : sid = p
      · subst hs
        refine ⟨?_, ?_⟩
        · simp only [runEngine, actionsFor_cons_eq, runPeer]
          rw [ih'.1]
          simp [updateTable]
        · simp only [runEngine, actionsFor_cons_eq, runPeer, eventsFor_append]
          rw [eventsFor_map_tag, ih'.2]
          simp [updateTable]
      · refine ⟨?_, ?_⟩
        · simp only [runEngine, actionsFor_cons_ne p sid hs]
          rw [ih'.1]
          simp [updateTable, Ne.symm hs]
        · simp only [runEngine, actionsFor_cons_ne p sid hs, eventsFor_append]
          rw [eventsFor_map_tag, ih'.2]
          simp [updateTable, hs, Ne.symm hs]

lemma engineEventsFor_eq (p : String) (as : List (String × PeerAction)) :
    engineEventsFor p as = (runPeer initialSession (actionsFor p as)).2 :=
  (engine_project (fun _ => initialSession) as p).2

lemma engineFinalSession_eq (p : String) (as : List (String × PeerAction)) :
    engineFinalSession p as = (runPeer initialSession (actionsFor p as)).1 :=
  (engine_project (fun _ => initialSession) as p).1

lemma engineEventsFor_shape (p : String) (as : List (String × PeerAction)) :
    engineEventsFor p as = [] ∨
    (∃ n, engineEventsFor p as =
      PeerEvent.peerconnect :: List.replicate n PeerEvent.msg) ∨
    (∃ n, engineEventsFor p as =
      (PeerEvent.peerconnect :: List.replicate n PeerEvent.msg) ++
        [PeerEvent.peerclose]) := by
  rw [engineEventsFor_eq]
  have h := runPeer_traceInv (actionsFor p as)
  revert h
  generalize runPeer initialSession (actionsFor p as) = r
  obtain ⟨⟨st, ec⟩, es⟩ := r
  intro h
  cases st <;> cases ec
  · exact Or.inl h
  · exact (h : False).elim
  · exact Or.inl h
  · exact (h : False).elim
  · exact (h : False).elim
  · exact Or.inr (Or.inl h)
  · exact Or.inl h
  · exact Or.inr (Or.inr h)

lemma getElem_shape_open (n k : Nat)
    (hk : k < (PeerEvent.peerconnect :: List.replicate n PeerEvent.msg).length) :
    (PeerEvent.peerconnect :: List.replicate n PeerEvent.msg)[k] =
      if k = 0 then PeerEvent.peerconnect else PeerEvent.msg := by
  cases k with
  | zero => simp
  | succ m =>
      have hm : m < n := by
        simp only [List.length_cons, List.length_replicate] at hk
        omega
      simp [List.getElem_cons_succ, List.getElem_replicate]

lemma getElem_shape_closed (n k : Nat)
    (hk : k < ((PeerEvent.peerconnect :: List.replicate n PeerEvent.msg) ++
      [PeerEvent.peerclose]).length) :
    ((PeerEvent.peerconnect :: List.replicate n PeerEvent.msg) ++
      [PeerEvent.peerclose])[k] =
      if k = n + 1 then PeerEvent.peerclose
      else if k = 0 then PeerEvent.peerconnect
      else PeerEvent.msg := by
  rcases Nat.lt_or_ge k (n + 1) with hlt | hge
  · have h1 : k < (PeerEvent.peerconnect :: List.replicate n PeerEvent.msg).length := by
      simp only [List.length_cons, List.length_replicate]
      omega
    rw [List.getElem_append_left h1, getElem_shape_open n k h1]
    have hne : k ≠ n + 1 := by omega
    simp [hne]
  · have hk2 : k < n + 2 := by
      simp only [List.length_append, List.length_cons, List.length_replicate,
        List.length_singleton, List.length_nil] at hk
      omega
    have hk1 : k = n + 1 := by omega
    subst hk1
    have h2 : (PeerEvent.peerconnect :: List.replicate n PeerEvent.msg).length ≤
        n + 1 := by simp
    rw [List.getElem_append_right h2]
    simp

lemma shape_ordering (es : List PeerEvent)
    (hshape : es = [] ∨
      (∃ n, es = PeerEvent.peerconnect :: List.replicate n PeerEvent.msg) ∨
      (∃ n, es = (PeerEvent.peerconnect :: List.replicate n PeerEvent.msg) ++
        [PeerEvent.peerclose]))
    (i j : Nat) (hi : i < es.length) (hj : j < es.length) :
    (es.get ⟨j, hj⟩ = PeerEvent.peerconnect →
      es.get ⟨i, hi⟩ = PeerEvent.msg → j < i) ∧
    (es.get ⟨i, hi⟩ = PeerEvent.msg →
      es.get ⟨j, hj⟩ = PeerEvent.peerclose → i < j) ∧
    (es.get ⟨i, hi⟩ = PeerEvent.peerconnect →
      es.get ⟨j, hj⟩ = PeerEvent.peerclose → i < j) := by
  rcases hshape with rfl | ⟨n, rfl⟩ | ⟨n, rfl⟩
  · simp at hi
  · simp only [List.get_eq_getElem]
    rw [getElem_shape_open n i hi, getElem_shape_open n j hj]
    refine ⟨?_, ?_, ?_⟩
    · intro hpc hmsg
      by_cases hj0 : j = 0
      · by_cases hi0 : i = 0
        · subst hi0
          simp at hmsg
        · omega
      · simp [hj0] at hpc
    · intro hmsg hpcl
      by_cases hj0 : j = 0 <;> simp [hj0] at hpcl
    · intro hpc hpcl
      by_cases hj0 : j = 0 <;> simp [hj0] at hpcl
  · have hi2 : i < n + 2 := by
      simp only [List.length_append, List.length_cons, List.length_replicate,
        List.length_singleton, List.length_nil] at hi
      omega
    simp only [List.get_eq_getElem]
    rw [getElem_shape_closed n i hi, getElem_shape_closed n j hj]
    refine ⟨?_, ?_, ?_⟩
    · intro hpc hmsg
      by_cases hjn : j = n + 1
      · simp [hjn] at hpc
      · by_cases hj0 : j = 0
        · by_cases hin : i = n + 1
          · omega
          · by_cases hi0 : i = 0
            · simp [hin, hi0] at hmsg
            · omega
        · simp [hjn, hj0] at hpc
    · intro hmsg hpcl
      by_cases hin : i = n + 1
      · simp [hin] at hmsg
      · by_cases hjn : j = n + 1
        · omega
        · by_cases hj0 : j = 0 <;> simp [hjn, hj0] at hpcl
    · intro hpc hpcl
      by_cases hin : i = n + 1
      · simp [hin] at hpc
      · by_cases hi0 : i = 0
        · by_cases hjn : j = n + 1
          · omega
          · by_cases hj0 : j = 0 <;> simp [hjn, hj0] at hpcl
        · simp [hin, hi0] at hpc

/-- **C2.** For every peer, in the sequence of events the Engine emits for
that peer, a `peerconnect` precedes every `msg`, every `msg` precedes the
`peerclose`, and the `peerconnect` precedes the `peerclose`. -/
theorem peerconnect_before_msg_before_peerclose
    (as : List (String × PeerAction)) (p : String) (i j : Nat)
    (hi : i < (engineEventsFor p as).length)
    (hj : j < (engineEventsFor p as).length) :
    ((engineEventsFor p as).get ⟨j, hj⟩ = PeerEvent.peerconnect →
      (engineEventsFor p as).get ⟨i, hi⟩ = PeerEvent.msg → j < i) ∧
    ((engineEventsFor p as).get ⟨i, hi⟩ = PeerEvent.msg →
      (engineEventsFor p as).get ⟨j, hj⟩ = PeerEvent.peerclose → i < j) ∧
    ((engineEventsFor p as).get ⟨i, hi⟩ = PeerEvent.peerconnect →
      (engineEventsFor p as).get ⟨j, hj⟩ = PeerEvent.peerclose → i < j) :=
  shape_ordering (engineEventsFor p as) (engineEventsFor_shape p as) i j hi hj

/-- Witness for C2 on the concrete run discover → connect → message → close
of a single peer, instantiated at the `peerconnect` and `msg` positions. -/
theorem peerconnect_before_msg_before_peerclose_witness : (0 : Nat) < 1 :=
  (peerconnect_before_msg_before_peerclose
    [("peer", PeerAction.beginNegotiation), ("peer", PeerAction.connectionConnected),
     ("peer", PeerAction.messageReceived), ("peer", PeerAction.connectionClosed)]
    "peer" 1 0 (by decide) (by decide)).1 (by decide) (by decide)

/-- **C3.** For every peer, the Engine emits at most one `peerclose`, and it
emits exactly one `peerclose` precisely when the peer's session ended closed
after having emitted a `peerconnect`; a peer that never connected vanishes
with no `peerclose` at all. -/
theorem peerclose_exactly_once_iff_peerconnect
    (as : List (String × PeerAction)) (p : String) :
    (engineEventsFor p as).count PeerEvent.peerclose ≤ 1 ∧
    ((engineEventsFor p as).count PeerEvent.peerclose = 1 ↔
      PeerEvent.peerconnect ∈ engineEventsFor p as ∧
      (engineFinalSession p as).state = PeerState.closed) := by
  rw [engineEventsFor_eq, engineFinalSession_eq]
  have h := runPeer_traceInv (actionsFor p as)
  revert h
  generalize runPeer initialSession (actionsFor p as) = r
  obtain ⟨⟨st, ec⟩, es⟩ := r
  intro h
  cases st <;> cases ec
  · have hes : es = [] := h
    subst hes
    simp
  · exact (h : False).elim
  · have hes : es = [] := h
    subst hes
    simp
  · exact (h : False).elim
  · exact (h : False).elim
  · obtain ⟨n, hes⟩ :
        ∃ n, es = PeerEvent.peerconnect :: List.replicate n PeerEvent.msg := h
    subst hes
    simp [List.count_cons, List.count_replicate]
  · have hes : es = [] := h
    subst hes
    simp
  · obtain ⟨n, hes⟩ :
        ∃ n, es = (PeerEvent.peerconnect :: List.replicate n PeerEvent.msg) ++
          [PeerEvent.peerclose] := h
    subst hes
    simp [List.count_append, List.count_cons, List.count_replicate]

/-- **C6 (counterexample).** The claim that the public surface consists
exactly of constructor/start/send/broadcast/destroy/events/peers/
connectedSessions fails on the source: `class P2PCF` also declares the
public field `clientId` (and likewise roomId, sessionId, contextId). -/
theorem engine_surface_not_exact :
    Member.mk "clientId" MemberKind.field ∈ p2pcfClassMembers ∧
    Member.mk "clientId" MemberKind.field ∉ claimedSurfaceMembers := by
  decide

/-- **C6 (amended).** The Engine's declared public surface consists of the
spec's list — constructor, start, send, broadcast, destroy, the events
peerconnect/peerclose/msg, and the views peers and connectedSessions —
plus the four read-only identity fields clientId, roomId, sessionId and
contextId. -/
theorem engine_surface_amended :
    claimedSurfaceMembers.all (fun m => p2pcfClassMembers.contains m) = true ∧
    p2pcfClassMembers.all
      (fun m => claimedSurfaceMembers.contains m ||
        engineIdentityFields.contains m) = true ∧
    p2pcfEvents = ["peerconnect", "peerclose", "msg"] ∧
    p2pcfMethods.map MethodSig.name = ["start", "send", "broadcast", "destroy"] := by
  decide

/-- **C7.** When every option is omitted, the resolved configuration is:
networkChangePollIntervalMs 15000, stateExpirationIntervalMs 120000,
stateHeartbeatWindowMs 30000, fastPollingDurationMs 10000,
fastPollingRateMs 1500, slowPollingRateMs 5000, idlePollingAfterMs
disabled, idlePollingRateMs infinite. -/
theorem default_timing_configuration :
    resolveTimingOptions {} =
      { networkChangePollIntervalMs := 15000
        stateExpirationIntervalMs := 120000
        stateHeartbeatWindowMs := 30000
        fastPollingDurationMs := 10000
        fastPollingRateMs := 1500
        slowPollingRateMs := 5000
        idlePollingAfterMs := none
        idlePollingRateMs := ⊤ } := by
  rfl

/-- **C8 (counterexample).** The claim that constructing the Engine without
a ContextIdStore falls back to an ephemeral context id (one not surviving a
page reload) fails on the source: the declared fallback is
`window.history.state` storage, and the `.d.ts` documents the context id as
persisting across page refreshes. -/
theorem default_store_not_ephemeral :
    (effectiveStore none).survivesReload = true := by
  rfl

/-- **C8 (amended).** When no ContextIdStore is provided, the Engine falls
back to `window.history.state` storage, so the context id persists across a
reload of the page; a provided store is used as-is. -/
theorem default_store_is_history_state :
    (effectiveStore none).location = "window.history.state" ∧
    (effectiveStore none).survivesReload = true ∧
    effectiveStore (some ⟨"custom", false⟩) = ⟨"custom", false⟩ :=
  ⟨rfl, rfl, rfl⟩

/-- **C9.** `start()` is declared asynchronous: its return type is
`Promise<void>`, not plain `void`. -/
theorem start_returns_promise :
    (p2pcfMethods.find? (fun m => m.name == "start")).map MethodSig.ret =
      some (TsType.promise TsType.void) ∧
    (p2pcfMethods.find? (fun m => m.name == "start")).map MethodSig.ret ≠
      some TsType.void := by
  decide

/-- **C10.** The `msg` event delivers the payload as an ArrayBuffer, while
`send` and `broadcast` accept either an ArrayBuffer or a Uint8Array. -/
theorem msg_delivers_arraybuffer :
    p2pcfEventSigs.lookup "msg" = some [TsType.peerHandle, TsType.arrayBuffer] ∧
    (p2pcfMethods.find? (fun m => m.name == "send")).map MethodSig.params =
      some [TsType.peerHandle, TsType.union2 TsType.arrayBuffer TsType.uint8Array] ∧
    (p2pcfMethods.find? (fun m => m.name == "broadcast")).map MethodSig.params =
      some [TsType.union2 TsType.arrayBuffer TsType.uint8Array] := by
  decide

end P2PCF
